import Mathlib

/-
Verification of the local storage engine and full-clean reconciliation of
serverauditor-sshconfig (termius-cli), shallowly embedded from:
  - serverauditor_sshconfig/core/storage/__init__.py  (ApplicationStorage)
  - serverauditor_sshconfig/cloud/commands.py         (FullCleanCommand)
Collaborator modules that are not among the sources (driver.py, query.py,
strategies.py, idgenerators.py) are modelled from the specification where a
claim needs them; each such definition is marked in its doc comment.
-/

set_option autoImplicit false

namespace Serverauditor

/-- A model: a raw record wrapped with its set name and nullable identifier.
`id = none` embeds Python `None`; `some 0` embeds a falsy zero id.  Fields
are a finite field-name-to-integer mapping consulted by the query engine. -/
structure Model where
  setName : String
  id : Option Nat
  fields : List (String × Int)
  deriving DecidableEq

/-- Python truthiness of an identifier value: `None` and `0` are falsy,
every other identifier is truthy. -/
def truthyId : Option Nat → Bool
  | none => false
  | some n => decide (n ≠ 0)

/-- Errors raised by ApplicationStorage.  `doesNotExistException` embeds
DoesNotExistException (the spec's NotFoundError), `tooManyEntriesException`
embeds TooManyEntriesException (the spec's AmbiguousMatchError), and
`assertionError` embeds a failed Python `assert` (the spec's
InvariantViolation for create-with-id / update-without-id). -/
inductive StorageErr where
  | assertionError
  | doesNotExistException
  | tooManyEntriesException
  deriving DecidableEq

/-- The driver's mapping from set name to the ordered record list of that
Record Set, embedded as an association list. -/
abbrev DriverData := List (String × List Model)

/-- Lookup of a set name in the driver mapping (`driver[key]` read). -/
def dget : DriverData → String → Option (List Model)
  | [], _ => none
  | (k', v) :: rest, k => if k' = k then some v else dget rest k

/-- Write of a set name in the driver mapping (`driver[key] = value`). -/
def dset : DriverData → String → List Model → DriverData
  | [], k, v => [(k, v)]
  | (k', v') :: rest, k, v =>
    if k' = k then (k, v) :: rest else (k', v') :: dset rest k v

/-- `driver.setdefault(key, [])`: returns the stored list when the key is
present, otherwise inserts and returns the empty default list. -/
def dsetdefault (d : DriverData) (k : String) : List Model × DriverData :=
  match dget d k with
  | some v => (v, d)
  | none => ([], dset d k [])

/-- Modelled from the spec: the PersistentDict driver state
(core/storage/driver.py is not among the sources).  `mem` is the in-memory
mapping, `durable` the contents last flushed by `sync()` (spec 4.1: sync
flushes all in-memory mutations to durable storage).  `tombstones` is the
Delete Strategy's record of deletions (spec 4.4: set name + id), `marked`
the Save Strategy's pending-sync bookkeeping (spec 4.4),
core/storage/strategies.py likewise not being among the sources. -/
structure StorageState where
  mem : DriverData
  durable : DriverData
  tombstones : List (String × Option Nat)
  marked : List (String × Option Nat)
  deriving DecidableEq

/-- Modelled from the spec: `PersistentDict.sync()` flushes all in-memory
mutations to durable storage (spec 4.1). -/
def syncDriver (st : StorageState) : StorageState :=
  { st with durable := st.mem }

/-- `ApplicationStorage.__exit__`: calls `self.driver.sync()` and returns
`None` (falsy), so a pending exception is not suppressed.  The result is
the state after sync, the exception as it propagates, and the suppression
flag. -/
def storageExit (st : StorageState) (exc : Option StorageErr) :
    StorageState × Option StorageErr × Bool :=
  (syncDriver st, exc, false)

/-- A `with self.storage:` block: run the body (which may leave a pending
exception while having already mutated the in-memory state), then
`__exit__` runs unconditionally. -/
def withStorage (st : StorageState)
    (body : StorageState → StorageState × Option StorageErr) :
    StorageState × Option StorageErr :=
  let r := body st
  let e := storageExit r.1 r.2
  (e.1, if e.2.2 then none else e.2.1)

/-- `ApplicationStorage._internal_get_all` through the internal model
constructor, which barely wraps the raw data: the record list of the set,
after `setdefault`. -/
def internalGetAll (st : StorageState) (setName : String) :
    List Model × StorageState :=
  ((dsetdefault st.mem setName).1,
   { st with mem := (dsetdefault st.mem setName).2 })

/-- `ApplicationStorage.get_all`: the record list of the set, each record
resolved through the bound Get Strategy's `get` (the `getter` parameter;
strategies are pluggable, constructor-bound policies). -/
def get_all (getter : Model → Model) (st : StorageState) (setName : String) :
    List Model × StorageState :=
  ((dsetdefault st.mem setName).1.map getter,
   { st with mem := (dsetdefault st.mem setName).2 })

/-- The removal loop of `_internal_delete`: scan the list, pop the first
record whose `id` equals the identificator and break.  The second component
is the loop variable `model` after the loop, which shadows the argument:
the matched record when found, otherwise the last element scanned, or the
original argument `prev` when the list is empty. -/
def deleteLoop (ident : Nat) (prev : Model) : List Model → List Model × Model
  | [] => ([], prev)
  | m :: ms =>
    if m.id = some ident then (ms, m)
    else ((m :: (deleteLoop ident m ms).1), (deleteLoop ident m ms).2)

/-- `ApplicationStorage._internal_delete`: asserts the model's identifier
is truthy, reads the set, removes the first record with that id (silently
doing nothing on a miss), and writes the list back under the set name of
the (shadowed) loop variable. -/
def internalDelete (st : StorageState) (m : Model) :
    Except StorageErr StorageState :=
  match m.id with
  | none => Except.error StorageErr.assertionError
  | some n =>
    if n = 0 then Except.error StorageErr.assertionError
    else
      let models := (dsetdefault st.mem m.setName).1
      let mem1 := (dsetdefault st.mem m.setName).2
      let mem2 := dset mem1 (deleteLoop n m models).2.setName (deleteLoop n m models).1
      Except.ok { st with mem := mem2 }

/-- `ApplicationStorage._internal_update`: append the model to its set's
record list and write it back. -/
def internalUpdate (st : StorageState) (m : Model) : Model × StorageState :=
  let mem2 :=
    dset (dsetdefault st.mem m.setName).2 m.setName
      ((dsetdefault st.mem m.setName).1 ++ [m])
  (m, { st with mem := mem2 })

/-- Modelled from the spec: `SaveStrategy.mark_model` records bookkeeping
metadata that the model must be included in the next push (spec 4.4);
core/storage/strategies.py is not among the sources. -/
def markModel (st : StorageState) (m : Model) : StorageState :=
  { st with marked := st.marked ++ [(m.setName, m.id)] }

/-- `ApplicationStorage.create`: asserts the model carries no (truthy) id,
assigns a generated id (`idGen` embeds the pluggable identifier generator;
idgenerators.py is not among the sources, spec 4.2) and inserts it. -/
def create (idGen : StorageState → Model → Nat) (st : StorageState)
    (m : Model) : Except StorageErr (Model × StorageState) :=
  if truthyId m.id then Except.error StorageErr.assertionError
  else Except.ok (internalUpdate st { m with id := some (idGen st m) })

/-- `ApplicationStorage.update`: asserts the model carries a truthy id,
then delete-then-reinsert: `_internal_delete`, `mark_model`,
`_internal_update`. -/
def update (st : StorageState) (m : Model) :
    Except StorageErr (Model × StorageState) :=
  if truthyId m.id then
    match internalDelete st m with
    | Except.error e => Except.error e
    | Except.ok st1 => Except.ok (internalUpdate (markModel st1 m) m)
  else Except.error StorageErr.assertionError

/-- `ApplicationStorage.save`: apply the Save Strategy transform
(`saver` embeds the pluggable `strategies.saver.save`), then dispatch on
the transformed model's id: `update` when truthy, `create` otherwise. -/
def save (saver : Model → Model) (idGen : StorageState → Model → Nat)
    (st : StorageState) (m : Model) :
    Except StorageErr (Model × StorageState) :=
  if truthyId (saver m).id then update st (saver m)
  else create idGen st (saver m)

/-- `ApplicationStorage.delete`: `_internal_delete`, then the Delete
Strategy registers the tombstone (spec 4.4: set name + id). -/
def delete (st : StorageState) (m : Model) : Except StorageErr StorageState :=
  match internalDelete st m with
  | Except.error e => Except.error e
  | Except.ok st1 =>
    Except.ok { st1 with tombstones := st1.tombstones ++ [(m.setName, m.id)] }

/-- Modelled from the spec: the query combinator (spec 4.3), `all` is
logical AND (the default when `query_union` is None), `any` logical OR;
core/storage/query.py is not among the sources. -/
inductive QUnion where
  | all
  | any
  deriving DecidableEq

/-- Modelled from the spec: one predicate entry `field.operator: value` of
a predicate spec (spec 4.3); supported operators: equals (the default),
ge, le, gt, lt, ne, in. -/
inductive Pred where
  | eq (field : String) (v : Int)
  | ge (field : String) (v : Int)
  | le (field : String) (v : Int)
  | gt (field : String) (v : Int)
  | lt (field : String) (v : Int)
  | ne (field : String) (v : Int)
  | isin (field : String) (vs : List Int)
  deriving DecidableEq

/-- Field access on a model's raw mapping (first binding wins; the claims
never exercise a missing field, which defaults to 0 here). -/
def getField (m : Model) (f : String) : Int :=
  (m.fields.lookup f).getD 0

/-- Modelled from the spec: evaluation of one predicate entry against a
record (spec 4.3). -/
def evalPred (m : Model) : Pred → Bool
  | Pred.eq f v => decide (getField m f = v)
  | Pred.ge f v => decide (getField m f ≥ v)
  | Pred.le f v => decide (getField m f ≤ v)
  | Pred.gt f v => decide (getField m f > v)
  | Pred.lt f v => decide (getField m f < v)
  | Pred.ne f v => decide (getField m f ≠ v)
  | Pred.isin f vs => vs.contains (getField m f)

/-- Modelled from the spec: a whole predicate spec evaluated under the
combinator (spec 4.3): `all` requires every entry, `any` at least one. -/
def evalQuery (u : QUnion) (preds : List Pred) (m : Model) : Bool :=
  match u with
  | QUnion.all => preds.all (evalPred m)
  | QUnion.any => preds.any (evalPred m)

/-- `ApplicationStorage.filter`: asserts the lookup mapping is non-empty
(`assert kwargs`), then keeps the records of `get_all` satisfying the
query, preserving order. -/
def filterModels (getter : Model → Model) (st : StorageState)
    (setName : String) (u : QUnion) (preds : List Pred) :
    Except StorageErr (List Model × StorageState) :=
  if preds.isEmpty then Except.error StorageErr.assertionError
  else
    Except.ok ((get_all getter st setName).1.filter (evalQuery u preds),
               (get_all getter st setName).2)

/-- `ApplicationStorage.get`: filter, then raise DoesNotExistException on
zero matches, TooManyEntriesException unless exactly one, else return the
unique match. -/
def get (getter : Model → Model) (st : StorageState) (setName : String)
    (u : QUnion) (preds : List Pred) :
    Except StorageErr (Model × StorageState) :=
  match filterModels getter st setName u preds with
  | Except.error e => Except.error e
  | Except.ok r =>
    match r.1 with
    | [] => Except.error StorageErr.doesNotExistException
    | [m] => Except.ok (m, r.2)
    | _ => Except.error StorageErr.tooManyEntriesException

/-- The tuple written in `FullCleanCommand.supported_models` before
`reversed` is applied: (SshKey, Snippet, SshIdentity, SshConfig, Tag,
Group, Host, PFRule, TagHost).  The concrete `set_name` strings live in
core/models/terminal.py, which is not among the sources, so lower-cased
class names stand in for the model classes / set names. -/
def supportedModelsTuple : List String :=
  ["sshkey", "snippet", "sshidentity", "sshconfig",
   "tag", "group", "host", "pfrule", "taghost"]

/-- `FullCleanCommand.supported_models = reversed(tuple)`. -/
def supported_models : List String :=
  supportedModelsTuple.reverse

/-- The deletion order stated by the specification's words (spec section 3:
identities and keys, then snippets, then ssh configs/tags/groups, then
hosts, then port-forward rules, then host-tag associations) — a refinement
comparison definition written from the spec, not from the source, to be
compared with `supported_models`. -/
def specClaimedOrder : List String :=
  ["sshidentity", "sshkey", "snippet", "sshconfig", "tag", "group",
   "host", "pfrule", "taghost"]

/-- Observable events of a full-clean run, for stating its sequencing. -/
inductive Event where
  | getBulk
  | enterStorage
  | cleanType (setName : String)
  | deleteRec (setName : String) (id : Option Nat)
  | syncEv
  | postBulk
  deriving DecidableEq

/-- The inner loop of `FullCleanCommand.full_clean`: delete each fetched
instance in order; an assertion failure aborts the run, keeping the state
mutated so far (the failing `delete` itself mutates nothing before its
assert). -/
def deleteInstances : StorageState → List Model →
    StorageState × Option StorageErr × List Event
  | st, [] => (st, none, [])
  | st, m :: ms =>
    match delete st m with
    | Except.error e => (st, some e, [])
    | Except.ok st1 =>
      ((deleteInstances st1 ms).1, (deleteInstances st1 ms).2.1,
       Event.deleteRec m.setName m.id :: (deleteInstances st1 ms).2.2)

/-- The outer loop of `FullCleanCommand.full_clean` over a list of model
classes: `get_all` the instances of each class, then delete each. -/
def fullCleanGo (getter : Model → Model) : StorageState → List String →
    StorageState × Option StorageErr × List Event
  | st, [] => (st, none, [])
  | st, k :: ks =>
    match deleteInstances (get_all getter st k).2 (get_all getter st k).1 with
    | (st1, some e, tr) => (st1, some e, Event.cleanType k :: tr)
    | (st1, none, tr) =>
      ((fullCleanGo getter st1 ks).1, (fullCleanGo getter st1 ks).2.1,
       Event.cleanType k :: tr ++ (fullCleanGo getter st1 ks).2.2)

/-- `FullCleanCommand.full_clean`: clean every supported model class in
the order of `supported_models`. -/
def full_clean (getter : Model → Model) (st : StorageState) :
    StorageState × Option StorageErr × List Event :=
  fullCleanGo getter st supported_models

/-- The external remote bulk-transfer collaborator (ApiController): its
`get_bulk` and `post_bulk` effects on local state, abstract. -/
structure Remote where
  get_bulk : StorageState → StorageState
  post_bulk : StorageState → StorageState

/-- A no-op echo remote collaborator: both bulk calls leave local state
unchanged. -/
def echoRemote : Remote :=
  ⟨fun st => st, fun st => st⟩

/-- `FullCleanCommand.process_sync`: `get_bulk`, then `with self.storage:
self.full_clean()` (exit always syncs), then `post_bulk` (skipped when the
body raised, since the exception propagates out of `take_action`). -/
def process_sync (getter : Model → Model) (remote : Remote)
    (st : StorageState) : StorageState × Option StorageErr × List Event :=
  match full_clean getter (remote.get_bulk st) with
  | (st2, some e, tr) =>
    (syncDriver st2, some e,
     Event.getBulk :: Event.enterStorage :: (tr ++ [Event.syncEv]))
  | (st2, none, tr) =>
    (remote.post_bulk (syncDriver st2), none,
     Event.getBulk :: Event.enterStorage :: (tr ++ [Event.syncEv, Event.postBulk]))

/-- The subsequence of model classes whose cleaning a trace records, in
order. -/
def cleanedTypes (tr : List Event) : List String :=
  tr.filterMap fun e =>
    match e with
    | Event.cleanType k => some k
    | _ => none

/-- Number of records of a list carrying the identifier `n`. -/
def countById (n : Nat) (l : List Model) : Nat :=
  (l.filter fun r => decide (r.id = some n)).length

/-- No two records of the list carry the same identifier. -/
def IdsNodup (l : List Model) : Prop :=
  l.Pairwise fun a b => a.id ≠ b.id

instance (l : List Model) : Decidable (IdsNodup l) :=
  inferInstanceAs (Decidable (l.Pairwise _))

/-- The identity Get/Save strategy transform (the internal strategy wraps
raw fields only). -/
def idStrategy : Model → Model := fun m => m

/-- A constant identifier generator used by concrete runs. -/
def constIdGen : StorageState → Model → Nat := fun _ _ => 7

/-- An empty storage state. -/
def emptyState : StorageState := ⟨[], [], [], []⟩

/-- Concrete host records for concrete runs. -/
def hostRec1 : Model := ⟨"host", some 1, [("age", 4)]⟩

/-- Second concrete host record. -/
def hostRec2 : Model := ⟨"host", some 2, [("age", 7)]⟩

/-- Third concrete host record. -/
def hostRec3 : Model := ⟨"host", some 3, [("age", 12)]⟩

/-- A populated storage state holding three host records. -/
def hostState : StorageState :=
  ⟨[("host", [hostRec1, hostRec2, hostRec3])], [], [], []⟩

/-- A model whose id occurs nowhere in `hostState`. -/
def missModel : Model := ⟨"host", some 5, []⟩

/-- A model carrying no id. -/
def noIdModel : Model := ⟨"host", none, []⟩

/-- Reading back the key just written returns the written value. -/
theorem dget_dset_self (d : DriverData) (k : String) (v : List Model) :
    dget (dset d k v) k = some v := by
  induction d with
  | nil => simp [dget, dset]
  | cons p rest ih =>
    obtain ⟨k', v'⟩ := p
    by_cases h : k' = k
    · simp [dset, h, dget]
    · simp [dset, h, dget, ih]

/-- Writing one key leaves the others unchanged. -/
theorem dget_dset_ne (d : DriverData) (k : String) (v : List Model)
    (k2 : String) (h : k2 ≠ k) : dget (dset d k v) k2 = dget d k2 := by
  have h' : ¬ k = k2 := fun hh => h hh.symm
  induction d with
  | nil => simp [dget, dset, h']
  | cons p rest ih =>
    obtain ⟨k', v'⟩ := p
    by_cases hk : k' = k
    · subst hk
      simp [dset, dget, h']
    · simp [dset, hk, dget, ih]

/-- An identifier is truthy exactly when it is a non-zero `some`. -/
theorem truthyId_eq_true {i : Option Nat} :
    truthyId i = true ↔ ∃ n, i = some n ∧ n ≠ 0 := by
  cases i with
  | none => simp [truthyId]
  | some n => simp [truthyId]

/-- The removal loop pops a matching head immediately. -/
theorem deleteLoop_head_eq (n : Nat) (prev m : Model) (ms : List Model)
    (h : m.id = some n) : deleteLoop n prev (m :: ms) = (ms, m) := by
  simp [deleteLoop, h]

/-- The removal loop recurses past a non-matching head. -/
theorem deleteLoop_head_ne (n : Nat) (prev m : Model) (ms : List Model)
    (h : ¬ m.id = some n) :
    deleteLoop n prev (m :: ms) =
      (m :: (deleteLoop n m ms).1, (deleteLoop n m ms).2) := by
  simp [deleteLoop, h]

/-- The removal loop returns a sublist of its input. -/
theorem deleteLoop_fst_sublist (n : Nat) (prev : Model) (l : List Model) :
    (deleteLoop n prev l).1.Sublist l := by
  induction l generalizing prev with
  | nil => simp [deleteLoop]
  | cons m ms ih =>
    by_cases h : m.id = some n
    · rw [deleteLoop_head_eq n prev m ms h]
      exact List.sublist_cons_self m ms
    · rw [deleteLoop_head_ne n prev m ms h]
      exact List.Sublist.cons₂ m (ih m)

/-- The loop variable after the removal loop is the previous binding or a
member of the scanned list. -/
theorem deleteLoop_snd_mem (n : Nat) (prev : Model) (l : List Model) :
    (deleteLoop n prev l).2 = prev ∨ (deleteLoop n prev l).2 ∈ l := by
  induction l generalizing prev with
  | nil => exact Or.inl rfl
  | cons m ms ih =>
    by_cases h : m.id = some n
    · right
      simp [deleteLoop, h]
    · rcases ih m with h2 | h2
      · right
        simp [deleteLoop, h, h2]
      · right
        simp [deleteLoop, h]
        exact Or.inr h2

/-- When no record matches, the removal loop leaves the list unchanged. -/
theorem deleteLoop_no_match (n : Nat) (prev : Model) (l : List Model)
    (h : ∀ r ∈ l, r.id ≠ some n) : (deleteLoop n prev l).1 = l := by
  induction l generalizing prev with
  | nil => rfl
  | cons m ms ih =>
    have hm : ¬ m.id = some n := h m (by simp)
    simp [deleteLoop, hm]
    exact ih m fun r hr => h r (by simp [hr])

/-- Unfolding of `countById` over a cons cell. -/
theorem countById_cons (n : Nat) (m : Model) (ms : List Model) :
    countById n (m :: ms) =
      countById n ms + (if m.id = some n then 1 else 0) := by
  by_cases h : m.id = some n
  · simp [countById, List.filter_cons, h]
  · simp [countById, List.filter_cons, h]

/-- A zero count means no record carries the identifier. -/
theorem countById_eq_zero {n : Nat} {l : List Model} :
    countById n l = 0 ↔ ∀ r ∈ l, r.id ≠ some n := by
  simp [countById, List.length_eq_zero, List.filter_eq_nil_iff]

/-- Unfolding of `IdsNodup` over a cons cell. -/
theorem idsNodup_cons {m : Model} {ms : List Model} :
    IdsNodup (m :: ms) ↔ (∀ b ∈ ms, m.id ≠ b.id) ∧ IdsNodup ms :=
  List.pairwise_cons

/-- A duplicate-free record list carries each identifier at most once. -/
theorem IdsNodup.countById_le_one {l : List Model} (h : IdsNodup l)
    (n : Nat) : countById n l ≤ 1 := by
  induction l with
  | nil => simp [countById]
  | cons m ms ih =>
    obtain ⟨hm, hms⟩ := idsNodup_cons.mp h
    by_cases hid : m.id = some n
    · have hz : countById n ms = 0 := countById_eq_zero.mpr fun r hr => by
        have := hm r hr
        rw [hid] at this
        exact fun hh => this hh.symm
      rw [countById_cons, hz]
      simp [hid]
    · rw [countById_cons]
      simp [hid]
      exact ih hms

/-- After the removal loop, a once-present identifier is gone. -/
theorem deleteLoop_countById (n : Nat) (prev : Model) (l : List Model)
    (h : countById n l ≤ 1) : countById n (deleteLoop n prev l).1 = 0 := by
  induction l generalizing prev with
  | nil => rfl
  | cons m ms ih =>
    by_cases hid : m.id = some n
    · rw [deleteLoop_head_eq n prev m ms hid]
      show countById n ms = 0
      rw [countById_cons, if_pos hid] at h
      omega
    · rw [deleteLoop_head_ne n prev m ms hid]
      show countById n (m :: (deleteLoop n m ms).1) = 0
      rw [countById_cons, if_neg hid]
      rw [countById_cons, if_neg hid] at h
      have hz := ih m (by omega)
      omega

/-- Core computation of `_internal_delete` on a present Record Set whose
records all carry the set's name. -/
theorem internalDelete_general (st : StorageState) (m : Model) (n : Nat)
    (recs : List Model) (hid : m.id = some n) (hn : n ≠ 0)
    (hk : dget st.mem m.setName = some recs)
    (hsn : ∀ r ∈ recs, r.setName = m.setName) :
    internalDelete st m = Except.ok
      { st with mem := dset st.mem m.setName (deleteLoop n m recs).1 } := by
  have hsd : dsetdefault st.mem m.setName = (recs, st.mem) := by
    simp [dsetdefault, hk]
  have hfin : (deleteLoop n m recs).2.setName = m.setName := by
    rcases deleteLoop_snd_mem n m recs with h | h
    · rw [h]
    · exact hsn _ h
  simp [internalDelete, hid, hn, hsd, hfin]

/-- Core computation of `delete` on a present Record Set. -/
theorem delete_general (st : StorageState) (m : Model) (n : Nat)
    (recs : List Model) (hid : m.id = some n) (hn : n ≠ 0)
    (hk : dget st.mem m.setName = some recs)
    (hsn : ∀ r ∈ recs, r.setName = m.setName) :
    delete st m = Except.ok
      { st with mem := dset st.mem m.setName (deleteLoop n m recs).1,
                tombstones := st.tombstones ++ [(m.setName, m.id)] } := by
  simp [delete, internalDelete_general st m n recs hid hn hk hsn]

/-- C6: exiting the scoped storage session always calls the driver's
`sync()`, whether or not the body raised, so in-memory mutations made
before an error are persisted (durable state equals the body's final
in-memory state); the exception itself is not suppressed and propagates
unchanged to the caller. -/
theorem C6_exit_always_syncs (st : StorageState)
    (body : StorageState → StorageState × Option StorageErr) :
    (withStorage st body).1.durable = (body st).1.mem ∧
    (withStorage st body).2 = (body st).2 ∧
    (∀ exc, (storageExit (body st).1 exc).1.durable = (body st).1.mem ∧
      (storageExit (body st).1 exc).2.1 = exc ∧
      (storageExit (body st).1 exc).2.2 = false) :=
  ⟨rfl, rfl, fun _ => ⟨rfl, rfl, rfl⟩⟩

/-- C10: `filter` (and therefore `get`) with no field lookups at all fails
via the `assert kwargs` assertion instead of returning the full Record
Set. -/
theorem C10_filter_requires_lookups (getter : Model → Model)
    (st : StorageState) (k : String) (u : QUnion) :
    filterModels getter st k u [] = Except.error StorageErr.assertionError ∧
    get getter st k u [] = Except.error StorageErr.assertionError :=
  ⟨rfl, rfl⟩

/-- C4: `save` first applies the Save Strategy transform and dispatches on
the transformed model's id (`update` when truthy, `create` otherwise);
`create` fails with the invariant-violating assertion when the model
already carries an id, and `update` fails the same way when it lacks
one. -/
theorem C4_save_dispatch (saver : Model → Model)
    (idGen : StorageState → Model → Nat) (st : StorageState) (m : Model) :
    (truthyId (saver m).id = true →
      save saver idGen st m = update st (saver m)) ∧
    (truthyId (saver m).id = false →
      save saver idGen st m = create idGen st (saver m)) ∧
    (∀ m2, truthyId m2.id = true →
      create idGen st m2 = Except.error StorageErr.assertionError) ∧
    (∀ m2, truthyId m2.id = false →
      update st m2 = Except.error StorageErr.assertionError) := by
  refine ⟨fun h => ?_, fun h => ?_, fun m2 h => ?_, fun m2 h => ?_⟩
  · simp [save, h]
  · simp [save, h]
  · simp [create, h]
  · simp [update, h]

/-- Witness for C4 at concrete inputs. -/
theorem C4_save_dispatch_witness :
    save idStrategy constIdGen hostState hostRec2 =
      update hostState (idStrategy hostRec2) ∧
    save idStrategy constIdGen hostState noIdModel =
      create constIdGen hostState (idStrategy noIdModel) ∧
    create constIdGen hostState hostRec2 =
      Except.error StorageErr.assertionError ∧
    update hostState noIdModel = Except.error StorageErr.assertionError :=
  ⟨(C4_save_dispatch idStrategy constIdGen hostState hostRec2).1 (by decide),
   (C4_save_dispatch idStrategy constIdGen hostState noIdModel).2.1 (by decide),
   (C4_save_dispatch idStrategy constIdGen hostState hostRec2).2.2.1
     hostRec2 (by decide),
   (C4_save_dispatch idStrategy constIdGen hostState hostRec2).2.2.2
     noIdModel (by decide)⟩

/-- C3: `get` raises DoesNotExistException on zero matches,
TooManyEntriesException on two or more, and returns the unique match when
exactly one record satisfies the predicate spec, whatever operators the
entries use. -/
theorem C3_get_cardinality (getter : Model → Model) (st : StorageState)
    (k : String) (u : QUnion) (preds : List Pred) (hp : preds ≠ []) :
    ((get_all getter st k).1.filter (evalQuery u preds) = [] →
      get getter st k u preds =
        Except.error StorageErr.doesNotExistException) ∧
    (2 ≤ ((get_all getter st k).1.filter (evalQuery u preds)).length →
      get getter st k u preds =
        Except.error StorageErr.tooManyEntriesException) ∧
    (∀ m, (get_all getter st k).1.filter (evalQuery u preds) = [m] →
      get getter st k u preds = Except.ok (m, (get_all getter st k).2)) := by
  have hne : preds.isEmpty = false := by
    cases preds with
    | nil => exact absurd rfl hp
    | cons a l => rfl
  refine ⟨fun h => ?_, fun h => ?_, fun m h => ?_⟩
  · simp [get, filterModels, hne, h]
  · rcases hres : (get_all getter st k).1.filter (evalQuery u preds) with
      _ | ⟨a, _ | ⟨b, t⟩⟩
    · rw [hres] at h
      simp at h
    · rw [hres] at h
      simp at h
    · simp [get, filterModels, hne, hres]
  · simp [get, filterModels, hne, h]

/-- Witness for C3: zero, many, and unique matches on a concrete store. -/
theorem C3_get_cardinality_witness :
    get idStrategy hostState "host" QUnion.all [Pred.eq "age" 99] =
      Except.error StorageErr.doesNotExistException ∧
    get idStrategy hostState "host" QUnion.all [Pred.ge "age" 5] =
      Except.error StorageErr.tooManyEntriesException ∧
    get idStrategy hostState "host" QUnion.all [Pred.eq "age" 4] =
      Except.ok (hostRec1, hostState) :=
  ⟨(C3_get_cardinality idStrategy hostState "host" QUnion.all
      [Pred.eq "age" 99] (by decide)).1 (by decide),
   (C3_get_cardinality idStrategy hostState "host" QUnion.all
      [Pred.ge "age" 5] (by decide)).2.1 (by decide),
   (C3_get_cardinality idStrategy hostState "host" QUnion.all
      [Pred.eq "age" 4] (by decide)).2.2 hostRec1 (by decide)⟩

/-- C2 (counterexample): deleting a model whose id is absent from its
Record Set does NOT fail with DoesNotExistException; it succeeds, leaves
the set as it was, and still registers the tombstone. -/
theorem C2_counterexample :
    delete hostState missModel =
      Except.ok { hostState with tombstones := [("host", some 5)] } ∧
    ∀ e : StorageErr, delete hostState missModel ≠ Except.error e := by
  refine ⟨rfl, fun e h => ?_⟩
  exact Except.noConfusion h

/-- C2 (amended): for a truthy-id model whose Record Set is present and
internally consistent, `delete` always succeeds, removing the first record
carrying the id (and leaving the set unchanged when the id is absent — no
DoesNotExistException is raised), and registers the Delete Strategy
tombstone. -/
theorem C2_delete_behavior (st : StorageState) (m : Model) (n : Nat)
    (recs : List Model) (hid : m.id = some n) (hn : n ≠ 0)
    (hk : dget st.mem m.setName = some recs)
    (hsn : ∀ r ∈ recs, r.setName = m.setName) :
    (∃ st2, delete st m = Except.ok st2 ∧
      st2.tombstones = st.tombstones ++ [(m.setName, m.id)] ∧
      dget st2.mem m.setName = some (deleteLoop n m recs).1 ∧
      ∀ k, k ≠ m.setName → dget st2.mem k = dget st.mem k) ∧
    ((∀ r ∈ recs, r.id ≠ some n) → (deleteLoop n m recs).1 = recs) := by
  refine ⟨⟨_, delete_general st m n recs hid hn hk hsn, rfl, ?_, ?_⟩,
    fun h => deleteLoop_no_match n m recs h⟩
  · exact dget_dset_self _ _ _
  · intro k hkne
    exact dget_dset_ne _ _ _ _ hkne

/-- Witness for C2's amended statement at concrete inputs. -/
theorem C2_delete_behavior_witness :
    (∃ st2, delete hostState hostRec2 = Except.ok st2 ∧
      st2.tombstones =
        hostState.tombstones ++ [(hostRec2.setName, hostRec2.id)] ∧
      dget st2.mem hostRec2.setName =
        some (deleteLoop 2 hostRec2 [hostRec1, hostRec2, hostRec3]).1 ∧
      ∀ k, k ≠ hostRec2.setName →
        dget st2.mem k = dget hostState.mem k) ∧
    ((∀ r ∈ [hostRec1, hostRec2, hostRec3], r.id ≠ some 2) →
      (deleteLoop 2 hostRec2 [hostRec1, hostRec2, hostRec3]).1 =
        [hostRec1, hostRec2, hostRec3]) :=
  C2_delete_behavior hostState hostRec2 2 [hostRec1, hostRec2, hostRec3]
    (by decide) (by decide) (by decide) (by decide)

/-- C9: `delete` on a truthy-id model whose id occurs nowhere in its
(present, consistent) Record Set silently leaves every set unchanged yet
still registers the Delete Strategy tombstone. -/
theorem C9_delete_tombstone_on_miss (st : StorageState) (m : Model)
    (n : Nat) (recs : List Model) (hid : m.id = some n) (hn : n ≠ 0)
    (hk : dget st.mem m.setName = some recs)
    (hsn : ∀ r ∈ recs, r.setName = m.setName)
    (hmiss : ∀ r ∈ recs, r.id ≠ some n) :
    ∃ st2, delete st m = Except.ok st2 ∧
      (∀ k, dget st2.mem k = dget st.mem k) ∧
      st2.tombstones = st.tombstones ++ [(m.setName, m.id)] ∧
      st2.durable = st.durable ∧ st2.marked = st.marked := by
  refine ⟨_, delete_general st m n recs hid hn hk hsn, ?_, rfl, rfl, rfl⟩
  intro k
  by_cases hkm : k = m.setName
  · subst hkm
    rw [dget_dset_self, deleteLoop_no_match n m recs hmiss, hk]
  · exact dget_dset_ne _ _ _ _ hkm

/-- Witness for C9 at concrete inputs. -/
theorem C9_delete_tombstone_on_miss_witness :
    ∃ st2, delete hostState missModel = Except.ok st2 ∧
      (∀ k, dget st2.mem k = dget hostState.mem k) ∧
      st2.tombstones =
        hostState.tombstones ++ [(missModel.setName, missModel.id)] ∧
      st2.durable = hostState.durable ∧ st2.marked = hostState.marked :=
  C9_delete_tombstone_on_miss hostState missModel 5
    [hostRec1, hostRec2, hostRec3]
    (by decide) (by decide) (by decide) (by decide) (by decide)

/-- Core computation of `update` on a present Record Set: the internal
delete's write-back happens first, then the marked reinsertion appends the
model. -/
theorem update_general (st : StorageState) (m : Model) (n : Nat)
    (recs : List Model) (hid : m.id = some n) (hn : n ≠ 0)
    (hk : dget st.mem m.setName = some recs)
    (hsn : ∀ r ∈ recs, r.setName = m.setName) :
    update st m = Except.ok (m,
      { st with
          mem := dset (dset st.mem m.setName (deleteLoop n m recs).1)
            m.setName ((deleteLoop n m recs).1 ++ [m]),
          marked := st.marked ++ [(m.setName, m.id)] }) := by
  have htr : truthyId m.id = true := by
    rw [hid]
    simp [truthyId, hn]
  have h1 := internalDelete_general st m n recs hid hn hk hsn
  have h2 : dsetdefault (dset st.mem m.setName (deleteLoop n m recs).1)
        m.setName
      = ((deleteLoop n m recs).1,
         dset st.mem m.setName (deleteLoop n m recs).1) := by
    simp [dsetdefault, dget_dset_self]
  simp [update, htr, h1, internalUpdate, markModel, h2]

/-- C5: delete-then-reinsert `update` on a duplicate-free Record Set never
leaves two records with the same id at any observable point: the set is
still duplicate-free after the internal delete's write-back, and again
after the reinsertion's write-back. -/
theorem C5_update_no_dup (st : StorageState) (m : Model) (n : Nat)
    (recs : List Model) (hid : m.id = some n) (hn : n ≠ 0)
    (hk : dget st.mem m.setName = some recs)
    (hsn : ∀ r ∈ recs, r.setName = m.setName)
    (hnd : IdsNodup recs) :
    ∃ st1, internalDelete st m = Except.ok st1 ∧
      dget st1.mem m.setName = some (deleteLoop n m recs).1 ∧
      IdsNodup (deleteLoop n m recs).1 ∧
      ∃ st2, update st m = Except.ok (m, st2) ∧
        dget st2.mem m.setName = some ((deleteLoop n m recs).1 ++ [m]) ∧
        IdsNodup ((deleteLoop n m recs).1 ++ [m]) := by
  have hsub := deleteLoop_fst_sublist n m recs
  have hnd1 : IdsNodup (deleteLoop n m recs).1 := hnd.sublist hsub
  have hz : countById n (deleteLoop n m recs).1 = 0 :=
    deleteLoop_countById n m recs (hnd.countById_le_one n)
  refine ⟨_, internalDelete_general st m n recs hid hn hk hsn,
    dget_dset_self _ _ _, hnd1,
    _, update_general st m n recs hid hn hk hsn,
    dget_dset_self _ _ _, ?_⟩
  show List.Pairwise _ _
  rw [List.pairwise_append]
  refine ⟨hnd1, List.pairwise_singleton _ _, ?_⟩
  intro a ha b hb
  have hb2 : b = m := by simpa using hb
  subst hb2
  rw [hid]
  exact countById_eq_zero.mp hz a ha

/-- Witness for C5 at concrete inputs. -/
theorem C5_update_no_dup_witness :
    ∃ st1, internalDelete hostState hostRec2 = Except.ok st1 ∧
      dget st1.mem hostRec2.setName =
        some (deleteLoop 2 hostRec2 [hostRec1, hostRec2, hostRec3]).1 ∧
      IdsNodup (deleteLoop 2 hostRec2 [hostRec1, hostRec2, hostRec3]).1 ∧
      ∃ st2, update hostState hostRec2 = Except.ok (hostRec2, st2) ∧
        dget st2.mem hostRec2.setName =
          some ((deleteLoop 2 hostRec2
            [hostRec1, hostRec2, hostRec3]).1 ++ [hostRec2]) ∧
        IdsNodup ((deleteLoop 2 hostRec2
          [hostRec1, hostRec2, hostRec3]).1 ++ [hostRec2]) :=
  C5_update_no_dup hostState hostRec2 2 [hostRec1, hostRec2, hostRec3]
    (by decide) (by decide) (by decide) (by decide) (by decide)

/-- C8: `filter` returns exactly the records of the set satisfying the
query — all predicate entries under combinator `all`, at least one under
`any` — as an order-preserving subsequence of `get_all`. -/
theorem C8_filter_semantics (getter : Model → Model) (st : StorageState)
    (k : String) (u : QUnion) (preds : List Pred) (hp : preds ≠ []) :
    ∃ res, filterModels getter st k u preds =
        Except.ok (res, (get_all getter st k).2) ∧
      res.Sublist (get_all getter st k).1 ∧
      (∀ m, m ∈ res ↔
        m ∈ (get_all getter st k).1 ∧ evalQuery u preds m = true) ∧
      (∀ m, (evalQuery QUnion.all preds m = true ↔
          ∀ p ∈ preds, evalPred m p = true) ∧
        (evalQuery QUnion.any preds m = true ↔
          ∃ p ∈ preds, evalPred m p = true)) := by
  have hne : preds.isEmpty = false := by
    cases preds with
    | nil => exact absurd rfl hp
    | cons a l => rfl
  refine ⟨(get_all getter st k).1.filter (evalQuery u preds), ?_,
    List.filter_sublist _, fun m => ?_, fun m => ⟨?_, ?_⟩⟩
  · simp [filterModels, hne]
  · simp [List.mem_filter]
  · simp [evalQuery, List.all_eq_true]
  · simp [evalQuery, List.any_eq_true]

/-- Witness for C8: the age-range query from the spec on a concrete
store. -/
theorem C8_filter_semantics_witness :
    ∃ res, filterModels idStrategy hostState "host" QUnion.all
        [Pred.ge "age" 5, Pred.le "age" 10] =
        Except.ok (res, (get_all idStrategy hostState "host").2) ∧
      res.Sublist (get_all idStrategy hostState "host").1 ∧
      (∀ m, m ∈ res ↔
        m ∈ (get_all idStrategy hostState "host").1 ∧
          evalQuery QUnion.all [Pred.ge "age" 5, Pred.le "age" 10] m
            = true) ∧
      (∀ m, (evalQuery QUnion.all [Pred.ge "age" 5, Pred.le "age" 10] m
            = true ↔
          ∀ p ∈ [Pred.ge "age" 5, Pred.le "age" 10],
            evalPred m p = true) ∧
        (evalQuery QUnion.any [Pred.ge "age" 5, Pred.le "age" 10] m
            = true ↔
          ∃ p ∈ [Pred.ge "age" 5, Pred.le "age" 10],
            evalPred m p = true)) :=
  C8_filter_semantics idStrategy hostState "host" QUnion.all
    [Pred.ge "age" 5, Pred.le "age" 10] (by decide)

/-- One step of the instance-deletion loop when `delete` succeeds. -/
theorem deleteInstances_cons_ok (st st1 : StorageState) (m : Model)
    (ms : List Model) (h : delete st m = Except.ok st1) :
    deleteInstances st (m :: ms) =
      ((deleteInstances st1 ms).1, (deleteInstances st1 ms).2.1,
       Event.deleteRec m.setName m.id :: (deleteInstances st1 ms).2.2) := by
  simp [deleteInstances, h]

/-- Deleting every fetched instance of a consistent Record Set empties the
set, touches no other set, and emits one deletion event per record. -/
theorem deleteInstances_empties (getter : Model → Model)
    (hg : ∀ m2, (getter m2).id = m2.id ∧ (getter m2).setName = m2.setName)
    (recs : List Model) :
    ∀ (st : StorageState) (k : String),
      dget st.mem k = some recs →
      (∀ r ∈ recs, truthyId r.id = true ∧ r.setName = k) →
      ∃ st2, deleteInstances st (recs.map getter) =
          (st2, none, recs.map fun r => Event.deleteRec r.setName r.id) ∧
        dget st2.mem k = some [] ∧
        (∀ k2, k2 ≠ k → dget st2.mem k2 = dget st.mem k2) ∧
        st2.durable = st.durable := by
  induction recs with
  | nil =>
    intro st k hk _
    exact ⟨st, rfl, hk, fun _ _ => rfl, rfl⟩
  | cons r rs ih =>
    intro st k hk hr
    obtain ⟨htr, hsr⟩ := hr r (by simp)
    obtain ⟨n, hid, hn⟩ := truthyId_eq_true.mp htr
    have hkg : (getter r).setName = k := by rw [(hg r).2, hsr]
    have hidg : (getter r).id = some n := by rw [(hg r).1, hid]
    have hkpre : dget st.mem (getter r).setName = some (r :: rs) := by
      rw [hkg]
      exact hk
    have hsn2 : ∀ x ∈ r :: rs, x.setName = (getter r).setName := by
      intro x hx
      rw [hkg]
      exact (hr x hx).2
    have hdel := delete_general st (getter r) n (r :: rs) hidg hn hkpre hsn2
    rw [deleteLoop_head_eq n (getter r) r rs hid] at hdel
    simp only [hkg] at hdel
    have hq1 : dget (dset st.mem k rs) k = some rs := dget_dset_self _ _ _
    have hrs : ∀ x ∈ rs, truthyId x.id = true ∧ x.setName = k :=
      fun x hx => hr x (by simp [hx])
    obtain ⟨st2, hdi, hempty, hother, hdur⟩ :=
      ih (StorageState.mk (dset st.mem k rs) st.durable (st.tombstones ++ [(k, (getter r).id)]) st.marked) k hq1 hrs
    refine ⟨st2, ?_, hempty, ?_, ?_⟩
    · rw [List.map_cons,
        deleteInstances_cons_ok st _ (getter r) (rs.map getter) hdel, hdi]
      simp only [List.map_cons, (hg r).1, (hg r).2]
    · intro k2 hk2
      rw [hother k2 hk2]
      exact dget_dset_ne _ _ _ _ hk2
    · rw [hdur]

/-- One step of the type-cleaning loop when instance deletion succeeds. -/
theorem fullCleanGo_cons_ok (getter : Model → Model)
    (st st1 : StorageState) (k : String) (ks : List String)
    (tr : List Event)
    (h : deleteInstances (get_all getter st k).2 (get_all getter st k).1 =
      (st1, none, tr)) :
    fullCleanGo getter st (k :: ks) =
      ((fullCleanGo getter st1 ks).1, (fullCleanGo getter st1 ks).2.1,
       Event.cleanType k :: tr ++ (fullCleanGo getter st1 ks).2.2) := by
  simp [fullCleanGo, h]

/-- `cleanedTypes` distributes over append. -/
theorem cleanedTypes_append (t1 t2 : List Event) :
    cleanedTypes (t1 ++ t2) = cleanedTypes t1 ++ cleanedTypes t2 :=
  List.filterMap_append _ _ _

/-- `cleanedTypes` keeps a leading `cleanType` event. -/
theorem cleanedTypes_cleanType_cons (k : String) (t : List Event) :
    cleanedTypes (Event.cleanType k :: t) = k :: cleanedTypes t := by
  simp [cleanedTypes, List.filterMap_cons]

/-- Deletion events contribute no cleaned types. -/
theorem cleanedTypes_deleteRecs (recs : List Model) :
    cleanedTypes (recs.map fun r => Event.deleteRec r.setName r.id)
      = [] := by
  induction recs with
  | nil => rfl
  | cons r rs ih =>
    rw [List.map_cons]
    simp [cleanedTypes, List.filterMap_cons]

/-- Cleaning one type on a store whose Record Set for that type (if
present) is consistent: the deletion loop succeeds, empties the set,
touches no other set, and emits only deletion events. -/
theorem cleanType_general (getter : Model → Model)
    (hg : ∀ m2, (getter m2).id = m2.id ∧ (getter m2).setName = m2.setName)
    (st : StorageState) (k : String)
    (hwfk : ∀ v, dget st.mem k = some v →
      ∀ r ∈ v, truthyId r.id = true ∧ r.setName = k) :
    ∃ st1 tr0,
      deleteInstances (get_all getter st k).2 (get_all getter st k).1 =
        (st1, none, tr0) ∧
      dget st1.mem k = some [] ∧
      (∀ k2, k2 ≠ k → dget st1.mem k2 = dget st.mem k2) ∧
      st1.durable = st.durable ∧
      cleanedTypes tr0 = [] ∧
      (∀ e ∈ tr0, ∃ k2 i, e = Event.deleteRec k2 i) := by
  rcases hdg : dget st.mem k with _ | recs
  · have hga : get_all getter st k =
        ([], { st with mem := dset st.mem k [] }) := by
      simp [get_all, dsetdefault, hdg]
    refine ⟨{ st with mem := dset st.mem k [] }, [], ?_, ?_, ?_, rfl, rfl,
      by simp⟩
    · rw [hga]
      rfl
    · exact dget_dset_self _ _ _
    · intro k2 hk2
      exact dget_dset_ne _ _ _ _ hk2
  · have hga : get_all getter st k = (recs.map getter, st) := by
      simp [get_all, dsetdefault, hdg]
    have hrecs : ∀ r ∈ recs, truthyId r.id = true ∧ r.setName = k :=
      hwfk recs hdg
    obtain ⟨st1, hdi, hempty1, hother1, hdur1⟩ :=
      deleteInstances_empties getter hg recs st k hdg hrecs
    refine ⟨st1, recs.map fun r => Event.deleteRec r.setName r.id,
      ?_, hempty1, hother1, hdur1, cleanedTypes_deleteRecs recs, ?_⟩
    · rw [hga]
      exact hdi
    · intro e he
      obtain ⟨r, _, hre⟩ := List.mem_map.mp he
      exact ⟨r.setName, r.id, hre.symm⟩

/-- Running the full-clean loop over any list of type names on a
consistent store succeeds, empties exactly those Record Sets, leaves all
others and the durable state untouched, and records the cleaned types in
the order given. -/
theorem fullCleanGo_spec (getter : Model → Model)
    (hg : ∀ m2, (getter m2).id = m2.id ∧ (getter m2).setName = m2.setName)
    (names : List String) :
    ∀ st : StorageState,
      (∀ k ∈ names, ∀ v, dget st.mem k = some v →
        ∀ r ∈ v, truthyId r.id = true ∧ r.setName = k) →
      (fullCleanGo getter st names).2.1 = none ∧
      (∀ k ∈ names,
        dget (fullCleanGo getter st names).1.mem k = some []) ∧
      (∀ k2, k2 ∉ names →
        dget (fullCleanGo getter st names).1.mem k2 = dget st.mem k2) ∧
      (fullCleanGo getter st names).1.durable = st.durable ∧
      cleanedTypes (fullCleanGo getter st names).2.2 = names ∧
      (∀ e ∈ (fullCleanGo getter st names).2.2,
        (∃ k, e = Event.cleanType k) ∨
          ∃ k i, e = Event.deleteRec k i) := by
  induction names with
  | nil =>
    intro st _
    exact ⟨rfl, by simp, fun _ _ => rfl, rfl, rfl, by simp [fullCleanGo]⟩
  | cons k ks ih =>
    intro st hwf
    obtain ⟨st1, tr0, hstep, hempty1, hother1, hdur1, hct0, hev0⟩ :=
      cleanType_general getter hg st k (hwf k (by simp))
    have hwf1 : ∀ k2 ∈ ks, ∀ v, dget st1.mem k2 = some v →
        ∀ r ∈ v, truthyId r.id = true ∧ r.setName = k2 := by
      intro k2 hk2 v hv r hrv
      by_cases hkk : k2 = k
      · subst hkk
        rw [hempty1] at hv
        injection hv with hv2
        rw [← hv2] at hrv
        cases hrv
      · rw [hother1 k2 hkk] at hv
        exact hwf k2 (List.mem_cons_of_mem k hk2) v hv r hrv
    obtain ⟨hnone2, hempty2, hother2, hdur2, hct2, hev2⟩ := ih st1 hwf1
    simp only [fullCleanGo_cons_ok getter st st1 k ks tr0 hstep]
    refine ⟨hnone2, ?_, ?_, hdur2.trans hdur1, ?_, ?_⟩
    · intro k2 hk2
      rcases List.mem_cons.mp hk2 with hh | hh
      · subst hh
        by_cases hmem : k2 ∈ ks
        · exact hempty2 k2 hmem
        · rw [hother2 k2 hmem]
          exact hempty1
      · exact hempty2 k2 hh
    · intro k2 hk2
      rw [hother2 k2 (fun hh => hk2 (List.mem_cons_of_mem k hh))]
      exact hother1 k2
        (fun hh => hk2 (by rw [hh]; exact List.mem_cons_self k ks))
    · simp only [cleanedTypes_cleanType_cons, cleanedTypes_append,
        hct0, hct2]
      simp
    · intro e he
      rcases List.mem_cons.mp he with hh | hh
      · exact Or.inl ⟨k, hh⟩
      · rcases List.mem_append.mp hh with hh2 | hh2
        · exact Or.inr (hev0 e hh2)
        · exact hev2 e hh2

/-- C7: full-clean performs exactly pull, then (inside the scoped session)
per-type deletion of every record, then sync-on-exit, then push; with the
no-op echo remote, every supported type's Record Set — in memory and in
the synced durable state — is empty afterwards, and no error is
raised. -/
theorem C7_full_clean_empties (getter : Model → Model)
    (hg : ∀ m2, (getter m2).id = m2.id ∧ (getter m2).setName = m2.setName)
    (st : StorageState)
    (hwf : ∀ k ∈ supported_models, ∀ v, dget st.mem k = some v →
      ∀ r ∈ v, truthyId r.id = true ∧ r.setName = k) :
    ∃ stF tr,
      process_sync getter echoRemote st =
        (stF, none, Event.getBulk :: Event.enterStorage ::
          (tr ++ [Event.syncEv, Event.postBulk])) ∧
      (∀ e ∈ tr, (∃ k, e = Event.cleanType k) ∨
        ∃ k i, e = Event.deleteRec k i) ∧
      ∀ k ∈ supported_models,
        dget stF.mem k = some [] ∧ dget stF.durable k = some [] := by
  obtain ⟨hnone, hempty, _, _, _, hev⟩ :=
    fullCleanGo_spec getter hg supported_models st hwf
  rcases hr : fullCleanGo getter st supported_models with ⟨st2, exc, tr⟩
  rw [hr] at hnone hempty hev
  simp only at hnone
  subst hnone
  refine ⟨syncDriver st2, tr, ?_, hev, ?_⟩
  · simp [process_sync, full_clean, echoRemote, hr]
  · intro k hk
    exact ⟨hempty k hk, hempty k hk⟩

/-- Witness for C7 on a concrete populated store with the identity Get
Strategy and the echo remote. -/
theorem C7_full_clean_empties_witness :
    ∃ stF tr,
      process_sync idStrategy echoRemote hostState =
        (stF, none, Event.getBulk :: Event.enterStorage ::
          (tr ++ [Event.syncEv, Event.postBulk])) ∧
      (∀ e ∈ tr, (∃ k, e = Event.cleanType k) ∨
        ∃ k i, e = Event.deleteRec k i) ∧
      ∀ k ∈ supported_models,
        dget stF.mem k = some [] ∧ dget stF.durable k = some [] :=
  C7_full_clean_empties idStrategy (fun _ => ⟨rfl, rfl⟩) hostState (by
    intro k hk v hv r hrv
    by_cases hkh : k = "host"
    · subst hkh
      rw [show dget hostState.mem "host" =
        some [hostRec1, hostRec2, hostRec3] from rfl] at hv
      injection hv with hv2
      rw [← hv2] at hrv
      fin_cases hrv
      · exact ⟨rfl, rfl⟩
      · exact ⟨rfl, rfl⟩
      · exact ⟨rfl, rfl⟩
    · have hne : ("host" : String) ≠ k := fun hh => hkh hh.symm
      rw [show hostState.mem =
        [("host", [hostRec1, hostRec2, hostRec3])] from rfl] at hv
      simp [dget, hne] at hv)

/-- C1 (counterexample): a concrete full-clean run cleans the supported
types in an order different from the one the specification states — the
first type cleaned is the host-tag association set and the last is the
key set, while the spec's stated order begins with identities/keys. -/
theorem C1_counterexample :
    cleanedTypes (full_clean idStrategy emptyState).2.2
        ≠ specClaimedOrder ∧
    cleanedTypes (full_clean idStrategy emptyState).2.2 =
      ["taghost", "pfrule", "host", "group", "tag", "sshconfig",
       "sshidentity", "snippet", "sshkey"] ∧
    specClaimedOrder.head? = some "sshidentity" ∧
    supported_models.head? = some "taghost" ∧
    supported_models.getLast? = some "sshkey" := by
  refine ⟨by decide, by decide, rfl, by decide, by decide⟩

/-- C1 (amended): full-clean deletes local records type by type in the
REVERSE of the order the spec states — host-tag associations first, then
port-forward rules, then hosts, then groups, tags and ssh configs, then
identities, then snippets, then keys — so that dependents are removed
before the entities they reference. -/
theorem C1_full_clean_order (getter : Model → Model)
    (hg : ∀ m2, (getter m2).id = m2.id ∧ (getter m2).setName = m2.setName)
    (st : StorageState)
    (hwf : ∀ k ∈ supported_models, ∀ v, dget st.mem k = some v →
      ∀ r ∈ v, truthyId r.id = true ∧ r.setName = k) :
    cleanedTypes (full_clean getter st).2.2 =
      ["taghost", "pfrule", "host", "group", "tag", "sshconfig",
       "sshidentity", "snippet", "sshkey"] := by
  obtain ⟨_, _, _, _, hct, _⟩ :=
    fullCleanGo_spec getter hg supported_models st hwf
  show cleanedTypes (fullCleanGo getter st supported_models).2.2 = _
  rw [hct]
  decide

/-- Witness for C1's amended statement on a concrete populated store. -/
theorem C1_full_clean_order_witness :
    cleanedTypes (full_clean idStrategy hostState).2.2 =
      ["taghost", "pfrule", "host", "group", "tag", "sshconfig",
       "sshidentity", "snippet", "sshkey"] :=
  C1_full_clean_order idStrategy (fun _ => ⟨rfl, rfl⟩) hostState (by
    intro k hk v hv r hrv
    by_cases hkh : k = "host"
    · subst hkh
      rw [show dget hostState.mem "host" =
        some [hostRec1, hostRec2, hostRec3] from rfl] at hv
      injection hv with hv2
      rw [← hv2] at hrv
      fin_cases hrv
      · exact ⟨rfl, rfl⟩
      · exact ⟨rfl, rfl⟩
      · exact ⟨rfl, rfl⟩
    · have hne : ("host" : String) ≠ k := fun hh => hkh hh.symm
      rw [show hostState.mem =
        [("host", [hostRec1, hostRec2, hostRec3])] from rfl] at hv
      simp [dget, hne] at hv)

end Serverauditor
